import Mathlib

/-!
Verification of `pkg/common/common.go` of the local static provisioner.

The Go functions are shallowly embedded: pure functions become Lean
functions, `(T, error)` results become `Except`/`Option`, Go maps that are
iterated become association lists, Go nil-able slices become
`Option (List _)`, and `runtime.GOOS` becomes an explicit parameter.
The `path/filepath` standard-library functions used by `GetContainerPath`
(`Clean`, `Join`, `Rel`) are embedded for the Unix separator rules under
which the provisioner container runs, operating on `List Char` components.
-/

set_option autoImplicit false

namespace LocalProvisioner

/-- The path component `..`. -/
def dd : List Char := ['.', '.']

/-- Split a character list on `'/'` (the pieces of `strings.Split(s, "/")`);
the result is never empty, so a non-separator character extends its first
piece. -/
def splitCh : List Char → List (List Char)
  | [] => [[]]
  | c :: rest =>
    if c = '/' then [] :: splitCh rest
    else (c :: (splitCh rest).headI) :: (splitCh rest).tail

/-- A component is meaningful for `filepath.Clean` when it is neither empty
nor the single dot. -/
def validComp (c : List Char) : Bool := decide (c ≠ [] ∧ c ≠ ['.'])

/-- Meaningful path components of a raw path. -/
def pCompsL (l : List Char) : List (List Char) := (splitCh l).filter validComp

/-- Whether a raw path is absolute (starts with the separator). -/
def isAbsL (l : List Char) : Bool := decide (l.head? = some '/')

/-- One step of `filepath.Clean`'s element processing, on a stack of already
processed components (top of the stack first).  `abs` tells whether the
path is rooted, in which case `..` at the root is dropped. -/
def stepComp (abs : Bool) (S : List (List Char)) (c : List Char) : List (List Char) :=
  if c = dd then
    match S with
    | [] => if abs then [] else [dd]
    | x :: S' => if x = dd then dd :: x :: S' else S'
  else c :: S

/-- Process a component list onto a stack. -/
def runComps (abs : Bool) (S : List (List Char)) (cs : List (List Char)) : List (List Char) :=
  cs.foldl (stepComp abs) S

/-- Normalised component list of a path (the components of `filepath.Clean`). -/
def nrmL (abs : Bool) (cs : List (List Char)) : List (List Char) :=
  (runComps abs [] cs).reverse

/-- Cleaned components of a raw path. -/
def cleanCompsL (l : List Char) : List (List Char) := nrmL (isAbsL l) (pCompsL l)

/-- Join components with the separator. -/
def joinComps : List (List Char) → List Char
  | [] => []
  | [c] => c
  | c :: c' :: rest => c ++ '/' :: joinComps (c' :: rest)

/-- Render an (absoluteness, components) pair back to a path, as
`filepath.Clean` does: the empty result becomes `/` or `.`. -/
def renderL (abs : Bool) (cs : List (List Char)) : List Char :=
  if cs = [] then (if abs then ['/'] else ['.'])
  else (if abs then ['/'] else []) ++ joinComps cs

/-- Model of Go `filepath.Clean` (Unix rules). -/
def goClean (s : String) : String := ⟨renderL (isAbsL s.data) (cleanCompsL s.data)⟩

/-- Model of Go `filepath.Join(a, b)` (Unix rules): join the non-empty
arguments with the separator, then clean; all-empty input gives `""`. -/
def goJoin (a b : String) : String :=
  if a = "" then (if b = "" then "" else goClean b)
  else goClean ⟨a.data ++ '/' :: b.data⟩

/-- Length of the longest common prefix of two lists. -/
def commonLen : List (List Char) → List (List Char) → Nat
  | x :: xs, y :: ys => if x = y then commonLen xs ys + 1 else 0
  | _, _ => 0

/-- The descent computation of `filepath.Rel` once both paths are cleaned
and known compatible: strip the longest common component prefix, fail if
the remaining base components start with `..`, otherwise climb with one
`..` per remaining base component and descend into the remaining target
components. -/
def goRelCore (B tElems : List (List Char)) : Option String :=
  if (B.drop (commonLen B tElems)).head? = some dd then none
  else
    some ⟨joinComps (List.replicate (B.drop (commonLen B tElems)).length dd ++
      tElems.drop (commonLen B tElems))⟩

/-- Model of Go `filepath.Rel(base, targ)` (Unix rules), `none` being the
error case.  Both paths are cleaned; equal paths give `.`; mixing an
absolute and a relative path is an error; otherwise `goRelCore` descends.
A cleaned target of `.` takes part in the comparison as the literal
component `.`, exactly as in the Go implementation, which compares the
raw cleaned strings element by element. -/
def goRel (base targ : String) : Option String :=
  if isAbsL base.data = isAbsL targ.data ∧ cleanCompsL base.data = cleanCompsL targ.data then
    some "."
  else if isAbsL base.data ≠ isAbsL targ.data then none
  else
    goRelCore (cleanCompsL base.data)
      (if isAbsL targ.data = false ∧ cleanCompsL targ.data = [] then [['.']]
       else cleanCompsL targ.data)

/-- Annotation key `pv.kubernetes.io/provisioned-by`. -/
def AnnProvisionedBy : String := "pv.kubernetes.io/provisioned-by"

/-- The key `volume.alpha.kubernetes.io/node-affinity` (named
`AlphaStorageNodeAffinity` plus the word for an annotation in the Go
source; shortened here). -/
def AlphaStorageNodeAffinityKey : String := "volume.alpha.kubernetes.io/node-affinity"

/-- Default block device cleaning command. -/
def DefaultBlockCleanerCommand : String := "/scripts/quick_reset.sh"

/-- Default volume mode of created PV objects. -/
def DefaultVolumeMode : String := "Filesystem"

/-- Default name pattern of PV discovery. -/
def DefaultNamePattern : String := "*"

/-- `v1.ReadWriteOnce`. -/
def ReadWriteOnce : String := "ReadWriteOnce"

/-- `v1.PersistentVolumeFilesystem`. -/
def PersistentVolumeFilesystem : String := "Filesystem"

/-- `v1.PersistentVolumeBlock`. -/
def PersistentVolumeBlock : String := "Block"

/-- `v1.LocalVolumeSource`: path and optional filesystem type. -/
structure LocalVolumeSource where
  path : String
  fsType : Option String
deriving DecidableEq

/-- Abstract model of `v1.NodeSelectorTerm`; its contents are only carried
around by the embedded functions, never inspected. -/
structure NodeSelectorTerm where
  requirements : List (String × String)
deriving DecidableEq

/-- `v1.VolumeNodeAffinity`: carried around, never inspected. -/
structure VolumeNodeAffinity where
  required : List NodeSelectorTerm
deriving DecidableEq

/-- Abstract model of `metav1.OwnerReference`; only propagated. -/
structure OwnerReference where
  name : String
deriving DecidableEq

/-- The object metadata fields populated by `CreateLocalPVSpec`.  The Go
string maps (labels, annotations) are association lists here. -/
structure ObjectMeta where
  name : String
  labels : List (String × String)
  annotations : List (String × String)
  ownerReferences : List OwnerReference
deriving DecidableEq

/-- The `v1.PersistentVolumeSpec` fields populated by `CreateLocalPVSpec`.
`storageCapacity` is the int64 storage quantity; `localSource` is the
`Local` field of the persistent volume source (nil pointer = `none`). -/
structure PersistentVolumeSpec where
  persistentVolumeReclaimPolicy : String
  storageCapacity : Int
  localSource : Option LocalVolumeSource
  accessModes : List String
  storageClassName : String
  volumeMode : Option String
  mountOptions : List String
  nodeAffinity : Option VolumeNodeAffinity
deriving DecidableEq

/-- `v1.PersistentVolume`. -/
structure PersistentVolume where
  objectMeta : ObjectMeta
  spec : PersistentVolumeSpec
deriving DecidableEq

/-- `MountConfig`: configuration for discovering one storage class.  The Go
`BlockCleanerCommand []string` distinguishes a nil slice from an empty
one, hence `Option (List String)`. -/
structure MountConfig where
  hostDir : String
  mountDir : String
  blockCleanerCommand : Option (List String)
  volumeMode : String
  accessMode : String
  fsType : String
  namePattern : String
  selector : List NodeSelectorTerm
deriving DecidableEq

/-- `LocalPVConfig`: the parameters of `CreateLocalPVSpec`.  Nil-able Go
pointers become options. -/
structure LocalPVConfig where
  name : String
  hostPath : String
  capacity : Int
  storageClass : String
  reclaimPolicy : String
  provisionerName : String
  useAlphaAPI : Bool
  affinityAnn : String
  nodeAffinity : Option VolumeNodeAffinity
  volumeMode : String
  accessMode : String
  mountOptions : List String
  fsType : Option String
  labels : List (String × String)
  setPVOwnerRef : Bool
  ownerReference : Option OwnerReference
deriving DecidableEq

/-- `CreateLocalPVSpec`: build the PV object, then default the access mode,
then place node affinity either in the alpha annotation or in the spec,
then optionally set the owner reference.  A nil `OwnerReference` pointer
would crash the Go code when dereferenced; the model substitutes a default
that the `setPVOwnerRef` branch alone observes. -/
def CreateLocalPVSpec (config : LocalPVConfig) : PersistentVolume :=
  let pv : PersistentVolume :=
    { objectMeta :=
        { name := config.name
          labels := config.labels
          annotations := [(AnnProvisionedBy, config.provisionerName)]
          ownerReferences := [] }
      spec :=
        { persistentVolumeReclaimPolicy := config.reclaimPolicy
          storageCapacity := config.capacity
          localSource := some { path := config.hostPath, fsType := config.fsType }
          accessModes := [config.accessMode]
          storageClassName := config.storageClass
          volumeMode := some config.volumeMode
          mountOptions := config.mountOptions
          nodeAffinity := none } }
  let pv :=
    if config.accessMode = "" then
      { pv with spec := { pv.spec with accessModes := [ReadWriteOnce] } }
    else pv
  let pv :=
    if config.useAlphaAPI then
      { pv with objectMeta :=
          { pv.objectMeta with annotations :=
              pv.objectMeta.annotations ++ [(AlphaStorageNodeAffinityKey, config.affinityAnn)] } }
    else
      { pv with spec := { pv.spec with nodeAffinity := config.nodeAffinity } }
  if config.setPVOwnerRef then
    { pv with objectMeta :=
        { pv.objectMeta with ownerReferences := [config.ownerReference.getD { name := "" }] } }
  else pv

/-- `GetContainerPath`: relative path of the PV's local path from the host
directory, joined onto the mount directory.  A nil `Local` source would
crash the Go code; the model substitutes an empty source that the theorems
exclude by hypothesis. -/
def GetContainerPath (pv : PersistentVolume) (config : MountConfig) : Except String String :=
  match goRel config.hostDir ((pv.spec.localSource.getD { path := "", fsType := none }).path) with
  | none => Except.error ("Could not get relative path for pv " ++ pv.objectMeta.name)
  | some relativePath => Except.ok (goJoin config.mountDir relativePath)

/-- The character replacement of `strings.Replace(path, "/", "\\", -1)`. -/
def winSep (c : Char) : Char := if c = '/' then '\\' else c

/-- `normalizePath`: on Windows replace `/` by `\` and force a `c:` drive
on paths that then start with `\`; elsewhere the identity.  `runtime.GOOS`
is the explicit `goos` parameter. -/
def normalizePath (goos : String) (p : String) : String :=
  if goos = "windows" then
    if (p.data.map winSep).head? = some '\\' then ⟨'c' :: ':' :: p.data.map winSep⟩
    else ⟨p.data.map winSep⟩
  else p

/-- The tail of the per-class validation of `ConfigMapDataToVolumeConfig`,
after the block cleaner command has been settled: reject empty
`MountDir`/`HostDir`, reject a volume mode that is neither Block nor
Filesystem after defaulting, and otherwise return the entry with both
paths normalised and the volume mode and name pattern defaulted (the Go
code performs these field updates one mutation at a time; the final map
value is this record). -/
def validateClassRest (goos : String) (cls : String) (c1 : MountConfig) : Except String MountConfig :=
  if c1.mountDir = "" ∨ c1.hostDir = "" then
    Except.error ("Storage Class " ++ cls ++ " is misconfigured, missing HostDir or MountDir parameter")
  else
    if (if c1.volumeMode = "" then DefaultVolumeMode else c1.volumeMode) ≠ PersistentVolumeBlock ∧
        (if c1.volumeMode = "" then DefaultVolumeMode else c1.volumeMode) ≠ PersistentVolumeFilesystem then
      Except.error ("unsupported volume mode " ++
        (if c1.volumeMode = "" then DefaultVolumeMode else c1.volumeMode))
    else
      Except.ok { c1 with
        mountDir := normalizePath goos c1.mountDir
        hostDir := normalizePath goos c1.hostDir
        volumeMode := if c1.volumeMode = "" then DefaultVolumeMode else c1.volumeMode
        namePattern := if c1.namePattern = "" then DefaultNamePattern else c1.namePattern }

/-- The validation and defaulting that `ConfigMapDataToVolumeConfig`
applies to one storage class entry after unmarshalling: a nil block
cleaner command is defaulted, a non-nil empty one is an error, and the
rest of the checks follow in `validateClassRest`. -/
def validateClass (goos : String) (cls : String) (config : MountConfig) : Except String MountConfig :=
  match config.blockCleanerCommand with
  | none =>
    validateClassRest goos cls { config with blockCleanerCommand := some [DefaultBlockCleanerCommand] }
  | some cmd =>
    if cmd.length < 1 then
      Except.error ("Invalid empty block cleaner command for class " ++ cls)
    else validateClassRest goos cls config

/-- The loop of `ConfigMapDataToVolumeConfig` over
`provisionerConfig.StorageClassConfig` after unmarshalling, writing each
validated entry back; the Go map is an association list here and the first
validation error aborts. -/
def processClasses (goos : String) : List (String × MountConfig) → Except String (List (String × MountConfig))
  | [] => Except.ok []
  | (cls, cfg) :: rest =>
    match validateClass goos cls cfg with
    | Except.error e => Except.error e
    | Except.ok cfg2 =>
      match processClasses goos rest with
      | Except.error e => Except.error e
      | Except.ok rest2 => Except.ok ((cls, cfg2) :: rest2)

/-- `insertSpaces`: prefix every newline-separated line with three spaces
and terminate it with a newline, accumulating with `+=` as the Go loop
does. -/
def insertSpaces (original : String) : String :=
  (original.splitOn "\n").foldl (fun spaced line => spaced ++ "   " ++ line ++ "\n") ""

/-- The document that `ConfigMapDataToVolumeConfig` hands to the YAML
parser: for each configmap entry, the key, a colon, a space, a newline,
then the space-indented value.  The Go map is an association list in
iteration order. -/
def buildRawYaml (data : List (String × String)) : String :=
  data.foldl (fun rawYaml kv => rawYaml ++ kv.1 ++ ": \n" ++ insertSpaces kv.2) ""

/-- The two OS probes of `util.VolumeUtil` used by `GetVolumeMode`; each
returns a `(bool, error)` pair. -/
structure VolumeUtil where
  isDir : String → Bool × Option String
  isBlock : String → Bool × Option String

/-- The error cases of `GetVolumeMode`, keeping the wrapped probe error. -/
inductive VolumeModeError where
  | neitherDirNorBlock (path : String)
  | dirCheckFailed (path : String) (err : String)
  | blockCheckFailed (path : String) (err : String)
deriving DecidableEq

/-- `GetVolumeMode`: Filesystem unconditionally on Windows; otherwise
Filesystem when the directory probe says so, else Block when the block
probe says so, else the neither-error when both probes succeeded, else
the directory error first, else the block error. -/
def GetVolumeMode (goos : String) (volUtil : VolumeUtil) (fullPath : String) :
    Except VolumeModeError String :=
  if goos = "windows" then Except.ok PersistentVolumeFilesystem
  else
    let dres := volUtil.isDir fullPath
    if dres.1 then Except.ok PersistentVolumeFilesystem
    else
      let bres := volUtil.isBlock fullPath
      if bres.1 then Except.ok PersistentVolumeBlock
      else
        match dres.2, bres.2 with
        | none, none => Except.error (VolumeModeError.neitherDirNorBlock fullPath)
        | some e, _ => Except.error (VolumeModeError.dirCheckFailed fullPath e)
        | none, some e => Except.error (VolumeModeError.blockCheckFailed fullPath e)

/-- `IsLocalPVWithStorageClass`: a PV with a nil local source is rejected;
otherwise its storage class name must equal one of the given names. -/
def IsLocalPVWithStorageClass (pv : PersistentVolume) (storageClassNames : List String) : Bool :=
  match pv.spec.localSource with
  | none => false
  | some _ => storageClassNames.any (fun n => pv.spec.storageClassName == n)

/-- UTF-8 bytes of one character, as Go's `[]byte(string)` produces them. -/
def charUtf8 (c : Char) : List Nat :=
  let n := c.toNat
  if n < 128 then [n]
  else if n < 2048 then [192 ||| (n >>> 6), 128 ||| (n &&& 63)]
  else if n < 65536 then
    [224 ||| (n >>> 12), 128 ||| ((n >>> 6) &&& 63), 128 ||| (n &&& 63)]
  else
    [240 ||| (n >>> 18), 128 ||| ((n >>> 12) &&& 63), 128 ||| ((n >>> 6) &&& 63), 128 ||| (n &&& 63)]

/-- UTF-8 bytes of a string. -/
def utf8Bytes (s : String) : List Nat := s.data.flatMap charUtf8

/-- The FNV-1a offset basis for 32 bits. -/
def fnvBasis : Nat := 2166136261

/-- One byte of FNV-1a-32: xor then multiply by the prime, modulo 2^32. -/
def fnvMix (h b : Nat) : Nat := ((h ^^^ b) * 16777619) % 4294967296

/-- `hash/fnv` `Write`: fold the bytes into the hash state. -/
def fnvWrite (h : Nat) (bytes : List Nat) : Nat := bytes.foldl fnvMix h

/-- Lowercase hexadecimal rendering of a number, as `fmt.Sprintf("%x")`. -/
def hexRender (n : Nat) : String := ⟨Nat.toDigits 16 n⟩

/-- `GenerateMountName`: `mount-` followed by the hex FNV-1a-32 hash state
after writing `HostDir` then `MountDir`. -/
def GenerateMountName (mount : MountConfig) : String :=
  "mount-" ++ hexRender (fnvWrite (fnvWrite fnvBasis (utf8Bytes mount.hostDir)) (utf8Bytes mount.mountDir))

/-- A reachable `filepath.Clean` stack: names on top of a block of `..`
components, the latter empty for rooted paths. -/
def CleanStack (a : Bool) (S : List (List Char)) : Prop :=
  ∃ ns k, S = ns ++ List.replicate k dd ∧ dd ∉ ns ∧ (a = true → k = 0)

/-- The error condition of claim C2, following the specification text:
an entry is rejected when a directory is empty, the defaulted volume mode
is unsupported, or a non-nil block cleaner command is empty. -/
def specBadClassEntry (c : MountConfig) : Prop :=
  c.mountDir = "" ∨ c.hostDir = "" ∨
  ((if c.volumeMode = "" then DefaultVolumeMode else c.volumeMode) ≠ PersistentVolumeFilesystem ∧
   (if c.volumeMode = "" then DefaultVolumeMode else c.volumeMode) ≠ PersistentVolumeBlock) ∨
  c.blockCleanerCommand = some []

theorem normalizePath_ne_empty (goos : String) (p : String) (h : p ≠ "") :
    normalizePath goos p ≠ "" := by
  have hd : p.data ≠ [] := fun hc => h (String.ext_iff.mpr (by simp [hc]))
  unfold normalizePath
  intro hc
  have hc' := String.ext_iff.mp hc
  split_ifs at hc' <;> simp_all

theorem validateClassRest_ok_spec (goos cls : String) (c1 cfg2 : MountConfig)
    (h : validateClassRest goos cls c1 = Except.ok cfg2) :
    cfg2.hostDir = normalizePath goos c1.hostDir ∧ c1.hostDir ≠ "" ∧
    cfg2.mountDir = normalizePath goos c1.mountDir ∧ c1.mountDir ≠ "" ∧
    cfg2.volumeMode = (if c1.volumeMode = "" then DefaultVolumeMode else c1.volumeMode) ∧
    (cfg2.volumeMode = PersistentVolumeFilesystem ∨ cfg2.volumeMode = PersistentVolumeBlock) ∧
    cfg2.namePattern = (if c1.namePattern = "" then DefaultNamePattern else c1.namePattern) ∧
    cfg2.accessMode = c1.accessMode ∧ cfg2.fsType = c1.fsType ∧
    cfg2.blockCleanerCommand = c1.blockCleanerCommand ∧ cfg2.selector = c1.selector := by
  unfold validateClassRest at h
  split_ifs at h with hmh hvm hdef
  all_goals cases h
  all_goals push_neg at hmh
  all_goals refine ⟨rfl, hmh.2, rfl, hmh.1, ?_, ?_, ?_, rfl, rfl, rfl, rfl⟩
  all_goals simp_all [DefaultVolumeMode, PersistentVolumeFilesystem, PersistentVolumeBlock]
  all_goals tauto

theorem validateClass_ok_spec (goos cls : String) (cfg cfg2 : MountConfig)
    (h : validateClass goos cls cfg = Except.ok cfg2) :
    cfg2.hostDir = normalizePath goos cfg.hostDir ∧ cfg.hostDir ≠ "" ∧ cfg2.hostDir ≠ "" ∧
    cfg2.mountDir = normalizePath goos cfg.mountDir ∧ cfg.mountDir ≠ "" ∧ cfg2.mountDir ≠ "" ∧
    cfg2.volumeMode = (if cfg.volumeMode = "" then DefaultVolumeMode else cfg.volumeMode) ∧
    (cfg2.volumeMode = PersistentVolumeFilesystem ∨ cfg2.volumeMode = PersistentVolumeBlock) ∧
    cfg2.namePattern = (if cfg.namePattern = "" then DefaultNamePattern else cfg.namePattern) ∧
    cfg2.namePattern ≠ "" ∧
    cfg2.accessMode = cfg.accessMode ∧
    cfg2.blockCleanerCommand =
      (if cfg.blockCleanerCommand = none then some [DefaultBlockCleanerCommand]
       else cfg.blockCleanerCommand) ∧
    (∃ l, cfg2.blockCleanerCommand = some l ∧ l ≠ []) := by
  have hnp2 : ∀ s : String, (if s = "" then DefaultNamePattern else s) ≠ "" := by
    intro s
    split_ifs with hs
    · simp [DefaultNamePattern]
    · exact hs
  unfold validateClass at h
  cases hb : cfg.blockCleanerCommand with
  | none =>
    rw [hb] at h
    simp only [] at h
    have hspec := validateClassRest_ok_spec goos cls _ cfg2 h
    simp only [] at hspec
    obtain ⟨e1, e2, e3, e4, e5, e6, e7, e8, e9, e10, e11⟩ := hspec
    exact ⟨e1, e2, e1 ▸ normalizePath_ne_empty _ _ e2, e3, e4,
      e3 ▸ normalizePath_ne_empty _ _ e4, e5, e6, e7, e7 ▸ hnp2 _, e8,
      by simp [e10, hb], ⟨[DefaultBlockCleanerCommand], by simp [e10], by simp⟩⟩
  | some cmd =>
    rw [hb] at h
    simp only [] at h
    by_cases hcmd : cmd.length < 1
    · rw [if_pos hcmd] at h
      cases h
    · rw [if_neg hcmd] at h
      have hspec := validateClassRest_ok_spec goos cls _ cfg2 h
      obtain ⟨e1, e2, e3, e4, e5, e6, e7, e8, e9, e10, e11⟩ := hspec
      have hcmdne : cmd ≠ [] := by
        intro hcc
        exact hcmd (by simp [hcc])
      exact ⟨e1, e2, e1 ▸ normalizePath_ne_empty _ _ e2, e3, e4,
        e3 ▸ normalizePath_ne_empty _ _ e4, e5, e6, e7, e7 ▸ hnp2 _, e8,
        by simp [e10, hb], ⟨cmd, by simp [e10, hb], hcmdne⟩⟩

theorem validateClassRest_error_iff (goos cls : String) (c1 : MountConfig) :
    (∃ e, validateClassRest goos cls c1 = Except.error e) ↔
      c1.mountDir = "" ∨ c1.hostDir = "" ∨
      ((if c1.volumeMode = "" then DefaultVolumeMode else c1.volumeMode) ≠ PersistentVolumeFilesystem ∧
       (if c1.volumeMode = "" then DefaultVolumeMode else c1.volumeMode) ≠ PersistentVolumeBlock) := by
  unfold validateClassRest
  by_cases hmh : c1.mountDir = "" ∨ c1.hostDir = ""
  · rw [if_pos hmh]
    simp only [Except.error.injEq, exists_eq']
    tauto
  · rw [if_neg hmh]
    by_cases hvm : (if c1.volumeMode = "" then DefaultVolumeMode else c1.volumeMode) ≠ PersistentVolumeBlock ∧
        (if c1.volumeMode = "" then DefaultVolumeMode else c1.volumeMode) ≠ PersistentVolumeFilesystem
    · rw [if_pos hvm]
      simp only [Except.error.injEq, exists_eq']
      tauto
    · rw [if_neg hvm]
      push_neg at hmh hvm
      constructor
      · rintro ⟨e, he⟩
        cases he
      · rintro (hm | hh | ⟨hf, hb⟩)
        · exact absurd hm hmh.1
        · exact absurd hh hmh.2
        · exact absurd (hvm hb) hf

theorem validateClass_error_iff (goos cls : String) (cfg : MountConfig) :
    (∃ e, validateClass goos cls cfg = Except.error e) ↔ specBadClassEntry cfg := by
  unfold validateClass specBadClassEntry
  cases hb : cfg.blockCleanerCommand with
  | none =>
    simp only []
    rw [validateClassRest_error_iff goos cls _]
    simp [hb]
  | some cmd =>
    simp only []
    by_cases hcmd : cmd.length < 1
    · have hc : cmd = [] := by
        cases cmd with
        | nil => rfl
        | cons a t => simp at hcmd
      rw [if_pos hcmd]
      simp [hb, hc]
    · rw [if_neg hcmd]
      rw [validateClassRest_error_iff goos cls cfg]
      have hc : ¬cmd = [] := by
        intro hcc
        exact hcmd (by simp [hcc])
      simp [hb, hc]

theorem processClasses_ok_forall2 (goos : String) (entries out : List (String × MountConfig))
    (h : processClasses goos entries = Except.ok out) :
    List.Forall₂ (fun inp outp : String × MountConfig =>
      outp.1 = inp.1 ∧ validateClass goos inp.1 inp.2 = Except.ok outp.2) entries out := by
  induction entries generalizing out with
  | nil =>
    simp only [processClasses] at h
    cases h
    exact List.Forall₂.nil
  | cons hd tl ih =>
    obtain ⟨cls, cfg⟩ := hd
    simp only [processClasses] at h
    cases hv : validateClass goos cls cfg with
    | error e => rw [hv] at h; cases h
    | ok cfg2 =>
      rw [hv] at h
      cases hr : processClasses goos tl with
      | error e => rw [hr] at h; cases h
      | ok rest2 =>
        rw [hr] at h
        cases h
        exact List.Forall₂.cons ⟨rfl, hv⟩ (ih rest2 hr)

theorem processClasses_error_iff (goos : String) (entries : List (String × MountConfig)) :
    (∃ e, processClasses goos entries = Except.error e) ↔
      ∃ p ∈ entries, specBadClassEntry p.2 := by
  induction entries with
  | nil =>
    simp [processClasses]
  | cons hd tl ih =>
    obtain ⟨cls, cfg⟩ := hd
    cases hv : validateClass goos cls cfg with
    | error e2 =>
      have hbadhd := (validateClass_error_iff goos cls cfg).1 ⟨e2, hv⟩
      constructor
      · intro _
        exact ⟨(cls, cfg), by simp, hbadhd⟩
      · intro _
        exact ⟨e2, by simp only [processClasses]; rw [hv]⟩
    | ok cfg2 =>
      have hok : ¬∃ e, validateClass goos cls cfg = Except.error e := by simp [hv]
      have hbadhd : ¬specBadClassEntry cfg :=
        fun hbd => hok ((validateClass_error_iff goos cls cfg).2 hbd)
      constructor
      · rintro ⟨e, he⟩
        simp only [processClasses] at he
        rw [hv] at he
        cases hr : processClasses goos tl with
        | error e3 =>
          obtain ⟨p, hp, hbad⟩ := ih.1 ⟨e3, hr⟩
          exact ⟨p, List.mem_cons_of_mem _ hp, hbad⟩
        | ok rest2 =>
          rw [hr] at he
          cases he
      · rintro ⟨p, hp, hbad⟩
        rcases List.mem_cons.1 hp with heq | hptl
        · subst heq
          exact absurd hbad hbadhd
        · obtain ⟨e3, hr⟩ := ih.2 ⟨p, hptl, hbad⟩
          exact ⟨e3, by simp only [processClasses]; rw [hv, hr]⟩

theorem splitCh_nil : splitCh [] = [[]] := rfl

theorem splitCh_cons (c : Char) (rest : List Char) :
    splitCh (c :: rest) =
      if c = '/' then [] :: splitCh rest
      else (c :: (splitCh rest).headI) :: (splitCh rest).tail := rfl

theorem splitCh_ne_nil (l : List Char) : splitCh l ≠ [] := by
  cases l with
  | nil => simp [splitCh_nil]
  | cons c rest =>
    rw [splitCh_cons]
    split_ifs <;> simp

theorem splitCh_append (l r : List Char) :
    splitCh (l ++ '/' :: r) = splitCh l ++ splitCh r := by
  induction l with
  | nil =>
    rw [List.nil_append, splitCh_cons, if_pos rfl, splitCh_nil]
    rfl
  | cons c l ih =>
    rw [List.cons_append, splitCh_cons, splitCh_cons c l]
    split_ifs with hc
    · rw [ih]
      rfl
    · rw [ih]
      cases hsp : splitCh l with
      | nil => exact absurd hsp (splitCh_ne_nil l)
      | cons g gs => simp

theorem splitCh_no_slash (l : List Char) : ∀ p ∈ splitCh l, '/' ∉ p := by
  induction l with
  | nil =>
    intro p hp
    simp [splitCh_nil] at hp
    simp [hp]
  | cons c rest ih =>
    intro p hp
    rw [splitCh_cons] at hp
    split_ifs at hp with hc
    · rcases List.mem_cons.1 hp with rfl | hmem
      · simp
      · exact ih p hmem
    · cases hsp : splitCh rest with
      | nil => exact absurd hsp (splitCh_ne_nil rest)
      | cons g gs =>
        rw [hsp] at hp
        simp only [List.headI_cons, List.tail_cons] at hp
        rcases List.mem_cons.1 hp with rfl | hmem
        · intro hsl
          rcases List.mem_cons.1 hsl with heq | hmem2
          · exact hc heq.symm
          · exact ih g (hsp ▸ List.mem_cons_self g gs) hmem2
        · exact ih p (hsp ▸ List.mem_cons_of_mem g hmem)

theorem splitCh_of_no_slash (p : List Char) (h : '/' ∉ p) : splitCh p = [p] := by
  induction p with
  | nil => rfl
  | cons c p ih =>
    have hc : c ≠ '/' := fun hcc => h (hcc ▸ List.mem_cons_self c p)
    have hp : '/' ∉ p := fun hmem => h (List.mem_cons_of_mem c hmem)
    rw [splitCh_cons, if_neg hc, ih hp]
    rfl

theorem splitCh_joinComps (cs : List (List Char)) (hne : cs ≠ [])
    (hsl : ∀ p ∈ cs, '/' ∉ p) : splitCh (joinComps cs) = cs := by
  induction cs with
  | nil => exact absurd rfl hne
  | cons c cs ih =>
    cases cs with
    | nil =>
      exact splitCh_of_no_slash c (hsl c (List.mem_cons_self c []))
    | cons c' cs' =>
      unfold joinComps
      rw [splitCh_append, splitCh_of_no_slash c (hsl c (by simp)),
        ih (by simp) (fun p hp => hsl p (List.mem_cons_of_mem c hp))]
      rfl

theorem pCompsL_append (l r : List Char) :
    pCompsL (l ++ '/' :: r) = pCompsL l ++ pCompsL r := by
  unfold pCompsL
  rw [splitCh_append, List.filter_append]

theorem pCompsL_valid (l : List Char) : ∀ p ∈ pCompsL l, p ≠ [] ∧ p ≠ ['.'] := by
  intro p hp
  have := List.of_mem_filter hp
  simpa [validComp] using this

theorem pCompsL_no_slash (l : List Char) : ∀ p ∈ pCompsL l, '/' ∉ p :=
  fun p hp => splitCh_no_slash l p (List.mem_of_mem_filter hp)

theorem stepComp_name (a : Bool) (S : List (List Char)) (c : List Char) (hc : c ≠ dd) :
    stepComp a S c = c :: S := by
  unfold stepComp
  rw [if_neg hc]

theorem stepComp_dd_nil (a : Bool) : stepComp a [] dd = if a then [] else [dd] := by
  unfold stepComp
  rw [if_pos rfl]

theorem stepComp_dd_cons (a : Bool) (x : List Char) (S : List (List Char)) :
    stepComp a (x :: S) dd = if x = dd then dd :: x :: S else S := by
  unfold stepComp
  rw [if_pos rfl]

theorem runComps_nil_cs (a : Bool) (S : List (List Char)) : runComps a S [] = S := rfl

theorem runComps_cons (a : Bool) (S : List (List Char)) (c : List Char) (cs : List (List Char)) :
    runComps a S (c :: cs) = runComps a (stepComp a S c) cs := rfl

theorem runComps_append_cs (a : Bool) (S : List (List Char)) (xs ys : List (List Char)) :
    runComps a S (xs ++ ys) = runComps a (runComps a S xs) ys :=
  List.foldl_append _ _ xs ys

theorem runComps_names (a : Bool) (S cs : List (List Char)) (h : ∀ c ∈ cs, c ≠ dd) :
    runComps a S cs = cs.reverse ++ S := by
  induction cs generalizing S with
  | nil => simp [runComps_nil_cs]
  | cons c cs ih =>
    have hc : c ≠ dd := h c (List.mem_cons_self c cs)
    rw [runComps_cons, stepComp_name a S c hc,
      ih (c :: S) (fun x hx => h x (List.mem_cons_of_mem c hx))]
    simp

theorem cleanStack_nil (a : Bool) : CleanStack a [] :=
  ⟨[], 0, by simp, by simp, fun _ => rfl⟩

theorem cleanStack_step (a : Bool) (S : List (List Char)) (c : List Char)
    (h : CleanStack a S) : CleanStack a (stepComp a S c) := by
  obtain ⟨ns, k, rfl, hns, hk⟩ := h
  by_cases hc : c = dd
  · subst hc
    cases hns2 : ns with
    | nil =>
      cases k with
      | zero =>
        subst hns2
        simp only [List.replicate, List.nil_append]
        rw [stepComp_dd_nil]
        cases a with
        | true => exact ⟨[], 0, by simp, by simp, fun _ => rfl⟩
        | false => exact ⟨[], 1, by simp, by simp, by simp⟩
      | succ k' =>
        have hka : a = false := by
          cases a with
          | true => exact absurd (hk rfl) (by simp)
          | false => rfl
        subst hka
        subst hns2
        simp only [List.nil_append, List.replicate_succ]
        rw [stepComp_dd_cons, if_pos rfl]
        refine ⟨[], k' + 2, ?_, by simp, by simp⟩
        simp [List.replicate_succ]
    | cons n ns' =>
      subst hns2
      have hn : n ≠ dd := fun hdd => hns (hdd ▸ List.mem_cons_self n ns')
      simp only [List.cons_append]
      rw [stepComp_dd_cons, if_neg hn]
      exact ⟨ns', k, rfl, fun hm => hns (List.mem_cons_of_mem n hm), hk⟩
  · rw [stepComp_name a _ c hc]
    exact ⟨c :: ns, k, by simp, by
      intro hm
      rcases List.mem_cons.1 hm with heq | hmem
      · exact hc heq.symm
      · exact hns hmem, hk⟩

theorem cleanStack_run (a : Bool) (S cs : List (List Char)) (h : CleanStack a S) :
    CleanStack a (runComps a S cs) := by
  induction cs generalizing S with
  | nil => exact h
  | cons c cs ih => exact ih _ (cleanStack_step a S c h)

theorem runComps_dd_blocks (k i : Nat) :
    runComps false (List.replicate i dd) (List.replicate k dd) = List.replicate (k + i) dd := by
  induction k generalizing i with
  | zero => simp [runComps_nil_cs]
  | succ k ih =>
    rw [List.replicate_succ, runComps_cons]
    have hstep : stepComp false (List.replicate i dd) dd = List.replicate (i + 1) dd := by
      cases i with
      | zero => simp [stepComp_dd_nil]
      | succ i' =>
        rw [List.replicate_succ, stepComp_dd_cons, if_pos rfl, ← List.replicate_succ,
          ← List.replicate_succ]
    rw [hstep, ih (i + 1)]
    congr 1
    omega

theorem runComps_reverse_stack (a : Bool) (S : List (List Char)) (h : CleanStack a S) :
    runComps a [] S.reverse = S := by
  obtain ⟨ns, k, rfl, hns, hk⟩ := h
  rw [List.reverse_append, List.reverse_replicate, runComps_append_cs]
  have hdds : runComps a [] (List.replicate k dd) = List.replicate k dd := by
    cases a with
    | true =>
      rw [hk rfl]
      simp [runComps_nil_cs]
    | false =>
      have := runComps_dd_blocks k 0
      simpa using this
  rw [hdds, runComps_names a _ ns.reverse
    (fun c hc => fun hcd => hns (List.mem_reverse.1 (hcd ▸ hc)))]
  simp

theorem runComps_nil_pComps (l : List Char) :
    runComps (isAbsL l) [] (pCompsL l) = (cleanCompsL l).reverse := by
  unfold cleanCompsL nrmL
  rw [List.reverse_reverse]

theorem cleanStack_pComps (l : List Char) :
    CleanStack (isAbsL l) (runComps (isAbsL l) [] (pCompsL l)) :=
  cleanStack_run _ _ _ (cleanStack_nil _)

theorem nrmL_append_names (a : Bool) (B0 F : List (List Char)) (hF : ∀ c ∈ F, c ≠ dd) :
    nrmL a (B0 ++ F) = nrmL a B0 ++ F := by
  unfold nrmL
  rw [runComps_append_cs]
  have hB : runComps a [] B0 = (runComps a [] B0).reverse.reverse := by
    rw [List.reverse_reverse]
  rw [runComps_names a _ F hF]
  rw [List.reverse_append]
  simp

theorem nrmL_clean (l : List Char) :
    nrmL (isAbsL l) (cleanCompsL l) = cleanCompsL l := by
  unfold nrmL
  have h1 : (cleanCompsL l) = (runComps (isAbsL l) [] (pCompsL l)).reverse := by
    rw [runComps_nil_pComps, List.reverse_reverse]
  rw [h1, runComps_reverse_stack _ _ (cleanStack_pComps l)]

theorem stepComp_mem (a : Bool) (S : List (List Char)) (c x : List Char)
    (hx : x ∈ stepComp a S c) : x ∈ S ∨ x = c ∨ x = dd := by
  by_cases hc : c = dd
  · subst hc
    cases S with
    | nil =>
      rw [stepComp_dd_nil] at hx
      split_ifs at hx
      · simp at hx
      · simp at hx
        exact Or.inr (Or.inr hx)
    | cons y S' =>
      rw [stepComp_dd_cons] at hx
      split_ifs at hx with hy
      · rcases List.mem_cons.1 hx with rfl | hmem
        · exact Or.inr (Or.inr rfl)
        · exact Or.inl hmem
      · exact Or.inl (List.mem_cons_of_mem y hx)
  · rw [stepComp_name a S c hc] at hx
    rcases List.mem_cons.1 hx with rfl | hmem
    · exact Or.inr (Or.inl rfl)
    · exact Or.inl hmem

theorem runComps_mem (a : Bool) (S cs : List (List Char)) :
    ∀ x ∈ runComps a S cs, x ∈ S ∨ x ∈ cs ∨ x = dd := by
  induction cs generalizing S with
  | nil =>
    intro x hx
    exact Or.inl hx
  | cons c cs ih =>
    intro x hx
    rw [runComps_cons] at hx
    rcases ih (stepComp a S c) x hx with hS | hcs | hdd
    · rcases stepComp_mem a S c x hS with h1 | h2 | h3
      · exact Or.inl h1
      · exact Or.inr (Or.inl (h2 ▸ List.mem_cons_self c cs))
      · exact Or.inr (Or.inr h3)
    · exact Or.inr (Or.inl (List.mem_cons_of_mem c hcs))
    · exact Or.inr (Or.inr hdd)

theorem cleanCompsL_mem (l : List Char) :
    ∀ p ∈ cleanCompsL l, '/' ∉ p ∧ p ≠ [] ∧ p ≠ ['.'] := by
  intro p hp
  have hrev : p ∈ runComps (isAbsL l) [] (pCompsL l) := by
    rw [runComps_nil_pComps]
    exact List.mem_reverse.2 hp
  rcases runComps_mem _ _ _ p hrev with hS | hcs | hdd
  · simp at hS
  · exact ⟨pCompsL_no_slash l p hcs, (pCompsL_valid l p hcs).1, (pCompsL_valid l p hcs).2⟩
  · subst hdd
    refine ⟨by decide, by decide, by decide⟩

theorem isAbsL_append_slash (hd fd : List Char) (h : hd ≠ []) :
    isAbsL (hd ++ '/' :: fd) = isAbsL hd := by
  cases hd with
  | nil => exact absurd rfl h
  | cons c rest => rfl

theorem isAbsL_joinComps (c : List Char) (rest : List (List Char))
    (hne : c ≠ []) (hsl : '/' ∉ c) : isAbsL (joinComps (c :: rest)) = false := by
  have hhead : ∀ x : List Char, (joinComps (c :: rest)) = c ++ x ∨ joinComps (c :: rest) = c →
    isAbsL (joinComps (c :: rest)) = false := by
    intro x hx
    cases c with
    | nil => exact absurd rfl hne
    | cons ch c' =>
      have hch : ch ≠ '/' := fun hcc => hsl (hcc ▸ List.mem_cons_self ch c')
      rcases hx with heq | heq <;>
        · rw [heq]
          simp [isAbsL, hch]
  cases rest with
  | nil => exact hhead c (Or.inr rfl)
  | cons c' rest' => exact hhead ('/' :: joinComps (c' :: rest')) (Or.inl rfl)

theorem render_roundtrip (a : Bool) (cs : List (List Char))
    (hv : ∀ p ∈ cs, '/' ∉ p ∧ p ≠ [] ∧ p ≠ ['.']) :
    isAbsL (renderL a cs) = a ∧ pCompsL (renderL a cs) = cs := by
  cases cs with
  | nil =>
    cases a with
    | true => exact ⟨by decide, by decide⟩
    | false => exact ⟨by decide, by decide⟩
  | cons c rest =>
    have hsl : ∀ p ∈ c :: rest, '/' ∉ p := fun p hp => (hv p hp).1
    have hjc : splitCh (joinComps (c :: rest)) = c :: rest :=
      splitCh_joinComps _ (by simp) hsl
    have hfilter : (c :: rest).filter validComp = c :: rest := by
      apply List.filter_eq_self.2
      intro p hp
      simp [validComp, (hv p hp).2.1, (hv p hp).2.2]
    cases a with
    | true =>
      constructor
      · rfl
      · show pCompsL ('/' :: joinComps (c :: rest)) = c :: rest
        unfold pCompsL
        rw [show ('/' :: joinComps (c :: rest) : List Char) = [] ++ '/' :: joinComps (c :: rest)
          from rfl, splitCh_append, hjc]
        simp only [List.filter_append]
        rw [hfilter, show List.filter validComp (splitCh []) = [] from rfl]
        rfl
    | false =>
      constructor
      · show isAbsL (joinComps (c :: rest)) = false
        exact isAbsL_joinComps c rest (hv c (by simp)).2.1 (hv c (by simp)).1
      · show pCompsL (joinComps (c :: rest)) = c :: rest
        unfold pCompsL
        rw [hjc, hfilter]

theorem data_ne_nil_of_ne_empty (s : String) (h : s ≠ "") : s.data ≠ [] := by
  intro hc
  exact h (String.ext_iff.mpr (by simp [hc]))

theorem cleanCompsL_nil_eq : cleanCompsL ([] : List Char) = [] := rfl

theorem goJoin_data (h f : String) (hor : ¬(h = "" ∧ f = ""))
    (habs : isAbsL f.data = false) (hnd : dd ∉ pCompsL f.data) :
    (goJoin h f).data = renderL (isAbsL h.data) (cleanCompsL h.data ++ pCompsL f.data) := by
  have hFnd : ∀ c ∈ pCompsL f.data, c ≠ dd := fun c hc hcd => hnd (hcd ▸ hc)
  by_cases hh : h = ""
  · subst hh
    have hf : f ≠ "" := fun hf => hor ⟨rfl, hf⟩
    unfold goJoin
    rw [if_pos rfl, if_neg hf]
    show (goClean f).data = renderL (isAbsL ("" : String).data) (cleanCompsL ("" : String).data ++ pCompsL f.data)
    unfold goClean
    rw [show isAbsL ("" : String).data = false from rfl,
      show cleanCompsL ("" : String).data = [] from rfl, List.nil_append, habs]
    show renderL false (cleanCompsL f.data) = renderL false (pCompsL f.data)
    unfold cleanCompsL
    rw [habs]
    rw [show pCompsL f.data = [] ++ pCompsL f.data from rfl, nrmL_append_names false [] _ hFnd]
    rfl
  · unfold goJoin
    rw [if_neg hh]
    show (goClean ⟨h.data ++ '/' :: f.data⟩).data = _
    unfold goClean
    have hdata : (String.mk (h.data ++ '/' :: f.data)).data = h.data ++ '/' :: f.data := rfl
    rw [hdata, isAbsL_append_slash _ _ (data_ne_nil_of_ne_empty h hh)]
    unfold cleanCompsL
    rw [pCompsL_append, isAbsL_append_slash _ _ (data_ne_nil_of_ne_empty h hh),
      nrmL_append_names _ _ _ hFnd]

theorem commonLen_cons (x y : List Char) (xs ys : List (List Char)) :
    commonLen (x :: xs) (y :: ys) = if x = y then commonLen xs ys + 1 else 0 := rfl

theorem commonLen_nil_left (ys : List (List Char)) : commonLen [] ys = 0 := by
  cases ys <;> rfl

theorem commonLen_self_append (B F : List (List Char)) : commonLen B (B ++ F) = B.length := by
  induction B with
  | nil => simp [commonLen_nil_left]
  | cons b B ih =>
    rw [List.cons_append, commonLen_cons, if_pos rfl, ih]
    rfl

theorem goJoin_abs_comps (h f : String) (hor : ¬(h = "" ∧ f = ""))
    (habs : isAbsL f.data = false) (hnd : dd ∉ pCompsL f.data) :
    isAbsL (goJoin h f).data = isAbsL h.data ∧
      cleanCompsL (goJoin h f).data = cleanCompsL h.data ++ pCompsL f.data := by
  have hvalid : ∀ p ∈ cleanCompsL h.data ++ pCompsL f.data, '/' ∉ p ∧ p ≠ [] ∧ p ≠ ['.'] := by
    intro p hp
    rcases List.mem_append.1 hp with hB | hF
    · exact cleanCompsL_mem h.data p hB
    · exact ⟨pCompsL_no_slash f.data p hF, (pCompsL_valid f.data p hF).1,
        (pCompsL_valid f.data p hF).2⟩
  have hdata := goJoin_data h f hor habs hnd
  have hrt := render_roundtrip (isAbsL h.data) (cleanCompsL h.data ++ pCompsL f.data) hvalid
  constructor
  · rw [hdata, hrt.1]
  · have hdef : ∀ l : List Char, cleanCompsL l = nrmL (isAbsL l) (pCompsL l) := fun _ => rfl
    rw [hdef ((goJoin h f).data), hdata, hrt.1, hrt.2]
    have hFnd : ∀ c ∈ pCompsL f.data, c ≠ dd := fun c hc hcd => hnd (hcd ▸ hc)
    have h1 : nrmL (isAbsL h.data) (cleanCompsL h.data ++ pCompsL f.data) =
        nrmL (isAbsL h.data) (cleanCompsL h.data) ++ pCompsL f.data :=
      nrmL_append_names _ _ _ hFnd
    rw [h1, nrmL_clean h.data]

theorem goRel_goJoin (h f : String) (habs : isAbsL f.data = false)
    (hnd : dd ∉ pCompsL f.data) :
    goRel h (goJoin h f) =
      some (if pCompsL f.data = [] then "." else ⟨joinComps (pCompsL f.data)⟩) := by
  by_cases hor : h = "" ∧ f = ""
  · obtain ⟨rfl, rfl⟩ := hor
    decide
  · obtain ⟨ha, hc⟩ := goJoin_abs_comps h f hor habs hnd
    unfold goRel
    rw [ha, hc]
    by_cases hF : pCompsL f.data = []
    · rw [if_pos hF]
      rw [if_pos ⟨rfl, by rw [hF, List.append_nil]⟩]
    · have hne : cleanCompsL h.data ≠ cleanCompsL h.data ++ pCompsL f.data := by
        intro heq
        have := congrArg List.length heq
        simp at this
        exact hF this
      rw [if_neg (fun hand => hne hand.2), if_neg (by simp)]
      have htne : ¬(isAbsL h.data = false ∧ cleanCompsL h.data ++ pCompsL f.data = []) := by
        rintro ⟨-, hnil⟩
        exact hF (List.append_eq_nil.1 hnil).2
      rw [if_neg htne]
      unfold goRelCore
      rw [commonLen_self_append, List.drop_length]
      rw [if_neg (by simp)]
      rw [List.drop_left]
      simp only [List.length_nil, List.replicate, List.nil_append]
      rw [if_neg hF]

theorem goJoin_congr (m x y : String) (hm : m ≠ "")
    (hxy : pCompsL x.data = pCompsL y.data) : goJoin m x = goJoin m y := by
  unfold goJoin
  rw [if_neg hm, if_neg hm]
  unfold goClean
  apply String.ext
  have hdx : (String.mk (m.data ++ '/' :: x.data)).data = m.data ++ '/' :: x.data := rfl
  have hdy : (String.mk (m.data ++ '/' :: y.data)).data = m.data ++ '/' :: y.data := rfl
  have hdef : ∀ l : List Char, cleanCompsL l = nrmL (isAbsL l) (pCompsL l) := fun _ => rfl
  rw [hdx, hdy, isAbsL_append_slash _ _ (data_ne_nil_of_ne_empty m hm),
    isAbsL_append_slash _ _ (data_ne_nil_of_ne_empty m hm),
    hdef (m.data ++ '/' :: x.data), hdef (m.data ++ '/' :: y.data),
    pCompsL_append, pCompsL_append, hxy,
    isAbsL_append_slash _ _ (data_ne_nil_of_ne_empty m hm),
    isAbsL_append_slash _ _ (data_ne_nil_of_ne_empty m hm)]

theorem goClean_goJoin (h f : String) (hor : ¬(h = "" ∧ f = ""))
    (habs : isAbsL f.data = false) (hnd : dd ∉ pCompsL f.data) :
    goClean (goJoin h f) = goJoin h f := by
  obtain ⟨ha, hc⟩ := goJoin_abs_comps h f hor habs hnd
  apply String.ext
  unfold goClean
  rw [ha, hc, goJoin_data h f hor habs hnd]

theorem pCompsL_mk_joinComps (F : List (List Char))
    (hsl : ∀ p ∈ F, '/' ∉ p) (hv : ∀ p ∈ F, p ≠ [] ∧ p ≠ ['.']) (hne : F ≠ []) :
    pCompsL (String.mk (joinComps F)).data = F := by
  have hd : (String.mk (joinComps F)).data = joinComps F := rfl
  rw [hd]
  unfold pCompsL
  rw [splitCh_joinComps F hne hsl]
  apply List.filter_eq_self.2
  intro p hp
  simp [validComp, (hv p hp).1, (hv p hp).2]

/-- C1: for every `LocalPVConfig`, the PV returned by `CreateLocalPVSpec`
carries the annotation `pv.kubernetes.io/provisioned-by` whose value is
`config.ProvisionerName`. -/
theorem createLocalPVSpec_provisionedBy (config : LocalPVConfig) :
    ((CreateLocalPVSpec config).objectMeta.annotations).lookup AnnProvisionedBy =
      some config.provisionerName := by
  unfold CreateLocalPVSpec
  split_ifs <;> simp [List.lookup]

/-- C4: for every `LocalPVConfig`, if `UseAlphaAPI` is set then
`CreateLocalPVSpec` stores `config.AffinityAnn` under the annotation key
`volume.alpha.kubernetes.io/node-affinity` and leaves the spec's node
affinity nil; otherwise it sets the spec's node affinity to
`config.NodeAffinity` and does not add that annotation. -/
theorem createLocalPVSpec_nodeAffinity (config : LocalPVConfig) :
    (config.useAlphaAPI = true →
      ((CreateLocalPVSpec config).objectMeta.annotations).lookup AlphaStorageNodeAffinityKey =
          some config.affinityAnn ∧
        (CreateLocalPVSpec config).spec.nodeAffinity = none) ∧
    (config.useAlphaAPI = false →
      (CreateLocalPVSpec config).spec.nodeAffinity = config.nodeAffinity ∧
        ((CreateLocalPVSpec config).objectMeta.annotations).lookup AlphaStorageNodeAffinityKey =
          none) := by
  unfold CreateLocalPVSpec
  split_ifs with h1 h2 h3 h2 h3 <;>
    simp_all [List.lookup,
      show (AlphaStorageNodeAffinityKey == AnnProvisionedBy) = false from by decide]

/-- C4 witness: both branches of the node-affinity placement evaluated at
concrete configurations. -/
theorem createLocalPVSpec_nodeAffinity_witness :
    (((CreateLocalPVSpec
        { name := "pv", hostPath := "/mnt/d", capacity := 1, storageClass := "sc",
          reclaimPolicy := "Delete", provisionerName := "prov", useAlphaAPI := true,
          affinityAnn := "aff", nodeAffinity := none, volumeMode := "Filesystem",
          accessMode := "", mountOptions := [], fsType := none, labels := [],
          setPVOwnerRef := false, ownerReference := none }).objectMeta.annotations).lookup
        AlphaStorageNodeAffinityKey = some "aff") ∧
    ((CreateLocalPVSpec
        { name := "pv", hostPath := "/mnt/d", capacity := 1, storageClass := "sc",
          reclaimPolicy := "Delete", provisionerName := "prov", useAlphaAPI := false,
          affinityAnn := "aff", nodeAffinity := some { required := [] },
          volumeMode := "Filesystem", accessMode := "", mountOptions := [], fsType := none,
          labels := [], setPVOwnerRef := false, ownerReference := none }).spec.nodeAffinity =
      some { required := [] }) :=
  ⟨((createLocalPVSpec_nodeAffinity _).1 rfl).1, ((createLocalPVSpec_nodeAffinity _).2 rfl).1⟩

/-- C5: the PV built by `CreateLocalPVSpec` has access modes
`[ReadWriteOnce]` exactly when `config.AccessMode` is empty and
`[config.AccessMode]` otherwise, and the defaulting happens only there:
`ConfigMapDataToVolumeConfig`'s class processing returns every access mode
exactly as parsed. -/
theorem createLocalPVSpec_accessModes (config : LocalPVConfig) :
    ((CreateLocalPVSpec config).spec.accessModes =
        if config.accessMode = "" then [ReadWriteOnce] else [config.accessMode]) ∧
    (∀ (goos : String) (entries out : List (String × MountConfig)),
      processClasses goos entries = Except.ok out →
      List.Forall₂ (fun inp outp : String × MountConfig => outp.2.accessMode = inp.2.accessMode)
        entries out) := by
  constructor
  · unfold CreateLocalPVSpec
    split_ifs <;> simp
  · intro goos entries out h
    refine (processClasses_ok_forall2 goos entries out h).imp ?_
    rintro inp outp ⟨-, hok⟩
    obtain ⟨-, -, -, -, -, -, -, -, -, -, hacc, -⟩ := validateClass_ok_spec goos inp.1 inp.2 outp.2 hok
    exact hacc

/-- C5 witness: the access-mode defaulting and the untouched parsed access
mode at concrete inputs. -/
theorem createLocalPVSpec_accessModes_witness :
    ((CreateLocalPVSpec
        { name := "pv", hostPath := "/mnt/d", capacity := 1, storageClass := "sc",
          reclaimPolicy := "Delete", provisionerName := "prov", useAlphaAPI := false,
          affinityAnn := "", nodeAffinity := none, volumeMode := "Filesystem",
          accessMode := "", mountOptions := [], fsType := none, labels := [],
          setPVOwnerRef := false, ownerReference := none }).spec.accessModes =
      if ("" : String) = "" then [ReadWriteOnce] else [""]) ∧
    List.Forall₂ (fun inp outp : String × MountConfig => outp.2.accessMode = inp.2.accessMode)
      [("sc", { hostDir := "/mnt/d", mountDir := "/mnt/d", blockCleanerCommand := none,
                volumeMode := "", accessMode := "ReadWriteMany", fsType := "",
                namePattern := "", selector := [] })]
      [("sc", { hostDir := "/mnt/d", mountDir := "/mnt/d",
                blockCleanerCommand := some [DefaultBlockCleanerCommand],
                volumeMode := DefaultVolumeMode, accessMode := "ReadWriteMany", fsType := "",
                namePattern := DefaultNamePattern, selector := [] })] :=
  ⟨(createLocalPVSpec_accessModes
      { name := "pv", hostPath := "/mnt/d", capacity := 1, storageClass := "sc",
        reclaimPolicy := "Delete", provisionerName := "prov", useAlphaAPI := false,
        affinityAnn := "", nodeAffinity := none, volumeMode := "Filesystem",
        accessMode := "", mountOptions := [], fsType := none, labels := [],
        setPVOwnerRef := false, ownerReference := none }).1,
   (createLocalPVSpec_accessModes
      { name := "pv", hostPath := "/mnt/d", capacity := 1, storageClass := "sc",
        reclaimPolicy := "Delete", provisionerName := "prov", useAlphaAPI := false,
        affinityAnn := "", nodeAffinity := none, volumeMode := "Filesystem",
        accessMode := "", mountOptions := [], fsType := none, labels := [],
        setPVOwnerRef := false, ownerReference := none }).2 "linux" _ _ rfl⟩

/-- C9: `IsLocalPVWithStorageClass` accepts exactly the PVs with a non-nil
local source whose storage class name occurs among the given names, and it
never consults the annotations. -/
theorem isLocalPVWithStorageClass_spec (pv : PersistentVolume) (storageClassNames : List String) :
    (IsLocalPVWithStorageClass pv storageClassNames = true ↔
      pv.spec.localSource ≠ none ∧ pv.spec.storageClassName ∈ storageClassNames) ∧
    (∀ anns, IsLocalPVWithStorageClass
        { pv with objectMeta := { pv.objectMeta with annotations := anns } } storageClassNames =
      IsLocalPVWithStorageClass pv storageClassNames) := by
  constructor
  · unfold IsLocalPVWithStorageClass
    cases pv.spec.localSource with
    | none => simp
    | some src =>
      simp only [List.any_eq_true, beq_iff_eq]
      constructor
      · rintro ⟨n, hn, rfl⟩
        exact ⟨by simp, hn⟩
      · rintro ⟨-, hmem⟩
        exact ⟨_, hmem, rfl⟩
  · intro anns
    rfl

/-- C2: the per-class validation of `ConfigMapDataToVolumeConfig` fails
exactly when some parsed storage class has an empty mount or host
directory, a volume mode that is neither Filesystem nor Block after
defaulting, or a non-nil empty block cleaner command; and a nil block
cleaner command is defaulted to the quick-reset script instead of being
an error. -/
theorem configMapData_validation_errors (goos : String) (entries : List (String × MountConfig)) :
    ((∃ e, processClasses goos entries = Except.error e) ↔ ∃ p ∈ entries, specBadClassEntry p.2) ∧
    (∀ out, processClasses goos entries = Except.ok out →
      List.Forall₂ (fun inp outp : String × MountConfig =>
        inp.2.blockCleanerCommand = none →
          outp.2.blockCleanerCommand = some [DefaultBlockCleanerCommand]) entries out) := by
  refine ⟨processClasses_error_iff goos entries, ?_⟩
  intro out h
  refine (processClasses_ok_forall2 goos entries out h).imp ?_
  rintro inp outp ⟨-, hok⟩
  intro hnil
  obtain ⟨-, -, -, -, -, -, -, -, -, -, -, hbcc, -⟩ :=
    validateClass_ok_spec goos inp.1 inp.2 outp.2 hok
  rw [hbcc, if_pos hnil]

/-- C2 witness: a nil block cleaner command is defaulted without error at a
concrete configuration. -/
theorem configMapData_validation_errors_witness :
    List.Forall₂ (fun inp outp : String × MountConfig =>
      inp.2.blockCleanerCommand = none →
        outp.2.blockCleanerCommand = some [DefaultBlockCleanerCommand])
      [("fast", { hostDir := "/mnt/fast", mountDir := "/discovery/fast",
                  blockCleanerCommand := none, volumeMode := "", accessMode := "",
                  fsType := "", namePattern := "", selector := [] })]
      [("fast", { hostDir := "/mnt/fast", mountDir := "/discovery/fast",
                  blockCleanerCommand := some [DefaultBlockCleanerCommand],
                  volumeMode := DefaultVolumeMode, accessMode := "", fsType := "",
                  namePattern := DefaultNamePattern, selector := [] })] :=
  (configMapData_validation_errors "linux" _).2 _ rfl

/-- C3: after the class processing of `ConfigMapDataToVolumeConfig`
succeeds, every entry of the storage class map has non-empty host and
mount directories equal to `normalizePath` of their parsed values, a
volume mode among Filesystem and Block with Filesystem substituted for an
empty parsed value, a non-empty name pattern with `*` substituted for an
empty parsed value, and a non-empty block cleaner command. -/
theorem configMapData_ok_invariants (goos : String) (entries out : List (String × MountConfig))
    (h : processClasses goos entries = Except.ok out) :
    List.Forall₂ (fun inp outp : String × MountConfig =>
      outp.1 = inp.1 ∧
      outp.2.hostDir = normalizePath goos inp.2.hostDir ∧ outp.2.hostDir ≠ "" ∧
      outp.2.mountDir = normalizePath goos inp.2.mountDir ∧ outp.2.mountDir ≠ "" ∧
      outp.2.volumeMode = (if inp.2.volumeMode = "" then DefaultVolumeMode else inp.2.volumeMode) ∧
      (outp.2.volumeMode = PersistentVolumeFilesystem ∨ outp.2.volumeMode = PersistentVolumeBlock) ∧
      outp.2.namePattern = (if inp.2.namePattern = "" then DefaultNamePattern else inp.2.namePattern) ∧
      outp.2.namePattern ≠ "" ∧
      (∃ l, outp.2.blockCleanerCommand = some l ∧ l ≠ [])) entries out := by
  refine (processClasses_ok_forall2 goos entries out h).imp ?_
  rintro inp outp ⟨hcls, hok⟩
  obtain ⟨e1, e2, e3, e4, e5, e6, e7, e8, e9, e10, -, -, e13⟩ :=
    validateClass_ok_spec goos inp.1 inp.2 outp.2 hok
  exact ⟨hcls, e1, e3, e4, e6, e7, e8, e9, e10, e13⟩

/-- C3 witness: the processed invariants at a concrete storage class map. -/
theorem configMapData_ok_invariants_witness :
    List.Forall₂ (fun inp outp : String × MountConfig =>
      outp.1 = inp.1 ∧
      outp.2.hostDir = normalizePath "linux" inp.2.hostDir ∧ outp.2.hostDir ≠ "" ∧
      outp.2.mountDir = normalizePath "linux" inp.2.mountDir ∧ outp.2.mountDir ≠ "" ∧
      outp.2.volumeMode = (if inp.2.volumeMode = "" then DefaultVolumeMode else inp.2.volumeMode) ∧
      (outp.2.volumeMode = PersistentVolumeFilesystem ∨ outp.2.volumeMode = PersistentVolumeBlock) ∧
      outp.2.namePattern = (if inp.2.namePattern = "" then DefaultNamePattern else inp.2.namePattern) ∧
      outp.2.namePattern ≠ "" ∧
      (∃ l, outp.2.blockCleanerCommand = some l ∧ l ≠ []))
      [("raw", { hostDir := "/mnt/raw", mountDir := "/mnt/raw",
                 blockCleanerCommand := some ["/scripts/shred.sh", "2"], volumeMode := "Block",
                 accessMode := "", fsType := "", namePattern := "sd*", selector := [] })]
      [("raw", { hostDir := "/mnt/raw", mountDir := "/mnt/raw",
                 blockCleanerCommand := some ["/scripts/shred.sh", "2"], volumeMode := "Block",
                 accessMode := "", fsType := "", namePattern := "sd*", selector := [] })] :=
  configMapData_ok_invariants "linux" _ _ rfl

/-- C6: `GetVolumeMode` returns Filesystem when the directory probe is
positive, else Block when the block probe is positive even if the
directory check errored, else the neither-error when both probes
succeeded negatively, else the directory-check error if present, else the
block-check error; on Windows it returns Filesystem without consulting
either probe. -/
theorem getVolumeMode_spec (goos : String) (volUtil : VolumeUtil) (fullPath : String) :
    (goos = "windows" →
      GetVolumeMode goos volUtil fullPath = Except.ok PersistentVolumeFilesystem) ∧
    (goos ≠ "windows" →
      ((volUtil.isDir fullPath).1 = true →
        GetVolumeMode goos volUtil fullPath = Except.ok PersistentVolumeFilesystem) ∧
      ((volUtil.isDir fullPath).1 = false → (volUtil.isBlock fullPath).1 = true →
        GetVolumeMode goos volUtil fullPath = Except.ok PersistentVolumeBlock) ∧
      ((volUtil.isDir fullPath).1 = false → (volUtil.isBlock fullPath).1 = false →
        (volUtil.isDir fullPath).2 = none → (volUtil.isBlock fullPath).2 = none →
        GetVolumeMode goos volUtil fullPath =
          Except.error (VolumeModeError.neitherDirNorBlock fullPath)) ∧
      (∀ e, (volUtil.isDir fullPath).1 = false → (volUtil.isBlock fullPath).1 = false →
        (volUtil.isDir fullPath).2 = some e →
        GetVolumeMode goos volUtil fullPath =
          Except.error (VolumeModeError.dirCheckFailed fullPath e)) ∧
      (∀ e, (volUtil.isDir fullPath).1 = false → (volUtil.isBlock fullPath).1 = false →
        (volUtil.isDir fullPath).2 = none → (volUtil.isBlock fullPath).2 = some e →
        GetVolumeMode goos volUtil fullPath =
          Except.error (VolumeModeError.blockCheckFailed fullPath e))) := by
  constructor
  · intro hw
    simp [GetVolumeMode, hw]
  · intro hw
    refine ⟨?_, ?_, ?_, ?_, ?_⟩
    · intro hd
      simp [GetVolumeMode, hw, hd]
    · intro hd hb
      simp [GetVolumeMode, hw, hd, hb]
    · intro hd hb hde hbe
      simp [GetVolumeMode, hw, hd, hb, hde, hbe]
    · intro e hd hb hde
      simp [GetVolumeMode, hw, hd, hb, hde]
    · intro e hd hb hde hbe
      simp [GetVolumeMode, hw, hd, hb, hde, hbe]

/-- C6 witness: every branch of the volume mode decision evaluated with
concrete probes. -/
theorem getVolumeMode_spec_witness :
    GetVolumeMode "windows"
        { isDir := fun _ => (false, some "x"), isBlock := fun _ => (false, some "y") } "/p" =
      Except.ok PersistentVolumeFilesystem ∧
    GetVolumeMode "linux"
        { isDir := fun _ => (true, none), isBlock := fun _ => (false, none) } "/p" =
      Except.ok PersistentVolumeFilesystem ∧
    GetVolumeMode "linux"
        { isDir := fun _ => (false, some "edir"), isBlock := fun _ => (true, none) } "/p" =
      Except.ok PersistentVolumeBlock ∧
    GetVolumeMode "linux"
        { isDir := fun _ => (false, none), isBlock := fun _ => (false, none) } "/p" =
      Except.error (VolumeModeError.neitherDirNorBlock "/p") ∧
    GetVolumeMode "linux"
        { isDir := fun _ => (false, some "edir"), isBlock := fun _ => (false, some "eblk") } "/p" =
      Except.error (VolumeModeError.dirCheckFailed "/p" "edir") ∧
    GetVolumeMode "linux"
        { isDir := fun _ => (false, none), isBlock := fun _ => (false, some "eblk") } "/p" =
      Except.error (VolumeModeError.blockCheckFailed "/p" "eblk") :=
  ⟨(getVolumeMode_spec "windows" _ "/p").1 rfl,
   ((getVolumeMode_spec "linux" _ "/p").2 (by decide)).1 rfl,
   ((getVolumeMode_spec "linux" _ "/p").2 (by decide)).2.1 rfl rfl,
   ((getVolumeMode_spec "linux" _ "/p").2 (by decide)).2.2.1 rfl rfl rfl rfl,
   ((getVolumeMode_spec "linux" _ "/p").2 (by decide)).2.2.2.1 "edir" rfl rfl rfl,
   ((getVolumeMode_spec "linux" _ "/p").2 (by decide)).2.2.2.2 "eblk" rfl rfl rfl rfl⟩

theorem join_cons (a : String) (l : List String) : String.join (a :: l) = a ++ String.join l := by
  apply String.ext
  simp [String.join_eq]

theorem foldlAppendJoin {α : Type} (g : α → String) (l : List α) (init : String) :
    l.foldl (fun a x => a ++ g x) init = init ++ String.join (l.map g) := by
  induction l generalizing init with
  | nil => simp [String.join]
  | cons hd tl ih =>
    rw [List.foldl_cons, ih, List.map_cons, join_cons, String.append_assoc]

/-- C7: `insertSpaces` produces, for each newline-separated line of its
input, three spaces, the line, and a newline, concatenated in order; and
the document fed to the YAML parser is the concatenation, over the
configmap entries, of the key, the two characters colon-space, a newline,
and the space-indented value. -/
theorem configMapData_rawYaml_shape (s : String) (data : List (String × String)) :
    insertSpaces s =
      String.join ((s.splitOn "\n").map (fun line => "   " ++ line ++ "\n")) ∧
    buildRawYaml data =
      String.join (data.map (fun kv => kv.1 ++ ": " ++ "\n" ++ insertSpaces kv.2)) := by
  constructor
  · unfold insertSpaces
    have hfun : (fun (spaced line : String) => spaced ++ "   " ++ line ++ "\n") =
        (fun (spaced line : String) => spaced ++ ("   " ++ line ++ "\n")) := by
      funext a x
      simp [String.append_assoc]
    rw [hfun, foldlAppendJoin (fun line => "   " ++ line ++ "\n") (s.splitOn "\n") ""]
    apply String.ext
    simp
  · unfold buildRawYaml
    have hfun : (fun (rawYaml : String) (kv : String × String) =>
          rawYaml ++ kv.1 ++ ": \n" ++ insertSpaces kv.2) =
        (fun (rawYaml : String) (kv : String × String) =>
          rawYaml ++ (kv.1 ++ ": " ++ "\n" ++ insertSpaces kv.2)) := by
      funext a kv
      have hsep : (": \n" : String) = ": " ++ "\n" := rfl
      rw [hsep]
      simp [String.append_assoc]
    rw [hfun, foldlAppendJoin _ data ""]
    apply String.ext
    simp

/-- C10: `GenerateMountName` is the string `mount-` followed by the
lowercase hexadecimal FNV-1a-32 hash of the concatenation of the host and
mount directories, so any two configurations whose concatenations agree
collide. -/
theorem generateMountName_spec (m1 m2 : MountConfig) :
    GenerateMountName m1 =
      "mount-" ++ hexRender (fnvWrite fnvBasis (utf8Bytes (m1.hostDir ++ m1.mountDir))) ∧
    (m1.hostDir ++ m1.mountDir = m2.hostDir ++ m2.mountDir →
      GenerateMountName m1 = GenerateMountName m2) := by
  have key : ∀ m : MountConfig,
      GenerateMountName m =
        "mount-" ++ hexRender (fnvWrite fnvBasis (utf8Bytes (m.hostDir ++ m.mountDir))) := by
    intro m
    unfold GenerateMountName fnvWrite utf8Bytes
    rw [show (m.hostDir ++ m.mountDir).data = m.hostDir.data ++ m.mountDir.data from
      String.data_append _ _]
    rw [List.flatMap_append, List.foldl_append]
  exact ⟨key m1, fun h => by rw [key m1, key m2, h]⟩

/-- C10 witness: two distinct configurations with equal concatenation
receive the same mount name. -/
theorem generateMountName_spec_witness :
    GenerateMountName
        { hostDir := "/mnt/a", mountDir := "b", blockCleanerCommand := none, volumeMode := "",
          accessMode := "", fsType := "", namePattern := "", selector := [] } =
      GenerateMountName
        { hostDir := "/mnt/", mountDir := "ab", blockCleanerCommand := none, volumeMode := "",
          accessMode := "", fsType := "", namePattern := "", selector := [] } :=
  (generateMountName_spec _ _).2 rfl

/-- C8 (amended): for every `MountConfig` with non-empty `MountDir` and
every PV whose local path is `filepath.Join(HostDir, fileName)` for a
relative `fileName` none of whose components is `..`, `GetContainerPath`
returns `filepath.Join(MountDir, fileName)` without error; when `HostDir`
equals `MountDir` the returned container path is the cleaned local path. -/
theorem getContainerPath_amended (config : MountConfig) (pv : PersistentVolume)
    (fileName : String) (src : LocalVolumeSource)
    (habs : isAbsL fileName.data = false)
    (hnd : dd ∉ pCompsL fileName.data)
    (hm : config.mountDir ≠ "")
    (hsrc : pv.spec.localSource = some src)
    (hpath : src.path = goJoin config.hostDir fileName) :
    GetContainerPath pv config = Except.ok (goJoin config.mountDir fileName) ∧
    (config.hostDir = config.mountDir →
      GetContainerPath pv config = Except.ok (goClean src.path)) := by
  have hmain : GetContainerPath pv config = Except.ok (goJoin config.mountDir fileName) := by
    unfold GetContainerPath
    rw [hsrc]
    simp only [Option.getD_some]
    rw [hpath, goRel_goJoin config.hostDir fileName habs hnd]
    simp only []
    congr 1
    apply goJoin_congr _ _ _ hm
    by_cases hF : pCompsL fileName.data = []
    · rw [if_pos hF, hF]
      rfl
    · rw [if_neg hF]
      exact pCompsL_mk_joinComps _ (pCompsL_no_slash _) (pCompsL_valid _) hF
  refine ⟨hmain, fun hhm => ?_⟩
  rw [hmain, hpath, goClean_goJoin _ _ (fun hand => hm (hhm.symm.trans hand.1)) habs hnd, hhm]

/-- C8 counterexample: with `HostDir = "a"`, `MountDir = "b"` and the
relative `fileName = "../a/x"`, the PV local path `a/x` equals
`filepath.Join("a", "../a/x")`, yet `GetContainerPath` returns `b/x`
while the claim demands `filepath.Join("b", "../a/x") = "a/x"`. -/
theorem getContainerPath_counterexample :
    isAbsL ("../a/x" : String).data = false ∧
    goJoin "a" "../a/x" = "a/x" ∧
    GetContainerPath
      { objectMeta := { name := "pv1", labels := [], annotations := [], ownerReferences := [] },
        spec := { persistentVolumeReclaimPolicy := "", storageCapacity := 0,
                  localSource := some { path := "a/x", fsType := none }, accessModes := [],
                  storageClassName := "", volumeMode := none, mountOptions := [],
                  nodeAffinity := none } }
      { hostDir := "a", mountDir := "b", blockCleanerCommand := none, volumeMode := "",
        accessMode := "", fsType := "", namePattern := "", selector := [] } =
      Except.ok "b/x" ∧
    ("b/x" : String) ≠ goJoin "b" "../a/x" := by
  refine ⟨by decide, by decide, rfl, by decide⟩

/-- C8 witness: the amended statement evaluated at a concrete mount
configuration and discovered file name. -/
theorem getContainerPath_amended_witness :
    GetContainerPath
      { objectMeta := { name := "pv2", labels := [], annotations := [], ownerReferences := [] },
        spec := { persistentVolumeReclaimPolicy := "", storageCapacity := 0,
                  localSource := some { path := "/mnt/disks/vol1", fsType := none },
                  accessModes := [], storageClassName := "", volumeMode := none,
                  mountOptions := [], nodeAffinity := none } }
      { hostDir := "/mnt/disks", mountDir := "/discovery", blockCleanerCommand := none,
        volumeMode := "", accessMode := "", fsType := "", namePattern := "", selector := [] } =
      Except.ok (goJoin "/discovery" "vol1") :=
  (getContainerPath_amended
    { hostDir := "/mnt/disks", mountDir := "/discovery", blockCleanerCommand := none,
      volumeMode := "", accessMode := "", fsType := "", namePattern := "", selector := [] }
    { objectMeta := { name := "pv2", labels := [], annotations := [], ownerReferences := [] },
      spec := { persistentVolumeReclaimPolicy := "", storageCapacity := 0,
                localSource := some { path := "/mnt/disks/vol1", fsType := none },
                accessModes := [], storageClassName := "", volumeMode := none,
                mountOptions := [], nodeAffinity := none } }
    "vol1" { path := "/mnt/disks/vol1", fsType := none }
    (by decide) (by decide) (by decide) rfl (by decide)).1

end LocalProvisioner
